import Mathlib

/-
Shallow embedding of `car_truck.py`: a thread-safe parking lot shared by
cars (one spot) and trucks (two adjacent spots).  Every public operation of
the source runs under the lot's single lock, so its observable behaviour is
a sequential atomic step; we model each method as a pure function from the
pre-state to (result, post-state), and interleavings of concurrent calls as
arbitrary sequences of such steps.
-/

namespace CarTruck

/-- Vehicle kinds, mirroring the `VehicleType` enum of the source. -/
inductive VehicleType where
  | CAR
  | TRUCK
deriving DecidableEq

/-- State of a `ParkingLot` object: `capacity` fixed at construction, and the
boolean occupancy array `spots` (`False` = free, `True` = occupied). -/
structure ParkingLot where
  capacity : Nat
  spots : List Bool
deriving DecidableEq

/-- Constructor `ParkingLot(capacity)`: `spots = [False] * capacity`. -/
def ParkingLot.init (capacity : Nat) : ParkingLot :=
  { capacity := capacity, spots := List.replicate capacity false }

/-- Reading `self.spots[i]`.  Every lot state the program constructs has
`spots.length = capacity` and all reads are at `i < capacity`, so the
`getD` default is never consulted in the claims (which carry that length
hypothesis). -/
def ParkingLot.spot (lot : ParkingLot) (i : Nat) : Bool :=
  lot.spots.getD i false

/-- Python booleans count as 0/1 integers inside `sum(self.spots)`. -/
def boolToNat (b : Bool) : Nat := if b then 1 else 0

/-- The `'occupied'` field of `get_availability`: `sum(self.spots)`. -/
def ParkingLot.occupied (lot : ParkingLot) : Nat :=
  (lot.spots.map boolToNat).sum

/-- The dictionary returned by `ParkingLot.get_availability`. -/
structure Availability where
  total : Nat
  occupied : Nat
  free : Nat
  spots : List Char
deriving DecidableEq

/-- Mirrors `ParkingLot.get_availability` (run under the lot's lock). -/
def ParkingLot.get_availability (lot : ParkingLot) : Availability :=
  { total := lot.capacity
    occupied := lot.occupied
    free := lot.capacity - lot.occupied
    spots := lot.spots.map (fun spot => if spot then 'X' else 'O') }

/-- The loop of `_find_single_spot`:
`for i in range(self.capacity): if not self.spots[i]: return i`, written with
the remaining iteration count (`capacity - i`) as structural fuel. -/
def findSingleFrom (lot : ParkingLot) : Nat → Nat → Option Nat
  | 0, _ => none
  | fuel + 1, i =>
    if lot.spot i then findSingleFrom lot fuel (i + 1) else some i

/-- Mirrors `ParkingLot._find_single_spot`. -/
def ParkingLot.find_single_spot (lot : ParkingLot) : Option Nat :=
  findSingleFrom lot lot.capacity 0

/-- The loop of `_find_adjacent_spots`:
`for i in range(self.capacity - 1): if not self.spots[i] and not self.spots[i+1]: return i`.
Python's `range(capacity - 1)` is empty for capacity 0 or 1, exactly as the
truncated `Nat` subtraction in the fuel makes it here. -/
def findAdjacentFrom (lot : ParkingLot) : Nat → Nat → Option Nat
  | 0, _ => none
  | fuel + 1, i =>
    if lot.spot i || lot.spot (i + 1) then findAdjacentFrom lot fuel (i + 1)
    else some i

/-- Mirrors `ParkingLot._find_adjacent_spots`. -/
def ParkingLot.find_adjacent_spots (lot : ParkingLot) : Option Nat :=
  findAdjacentFrom lot (lot.capacity - 1) 0

/-- Outcome of a `request_spot` call, one constructor per control-flow branch
of the source.  The failing branches are told apart by the diagnostic each
prints; the value the method returns is recovered by `toReturn`. -/
inductive RequestResult where
  | alreadyHeld (held : Nat)
  | granted (index : Nat)
  | noCapacity
deriving DecidableEq

/-- The `Optional[int]` value `request_spot` actually returns. -/
def RequestResult.toReturn : RequestResult → Option Nat
  | .granted i => some i
  | .alreadyHeld _ => none
  | .noCapacity => none

/-- Outcome of a `yield_spot` call, one constructor per control-flow branch
of the source. -/
inductive YieldResult where
  | invalidIndex
  | notHeld
  | indexMismatch (held : Nat)
  | ok
deriving DecidableEq

/-- The `bool` value `yield_spot` actually returns. -/
def YieldResult.toReturn : YieldResult → Bool
  | .ok => true
  | .invalidIndex => false
  | .notHeld => false
  | .indexMismatch _ => false

/-- State of a `Vehicle` object: its class tag and its `spot_index`
(`None` = not parked). -/
structure Vehicle where
  vehicleType : VehicleType
  spot_index : Option Nat
deriving DecidableEq

/-- Mirrors `Car.request_spot`: fail if already parked, else first-fit
search plus commit of one spot, all inside one critical section. -/
def Car.request_spot (v : Vehicle) (lot : ParkingLot) :
    RequestResult × Vehicle × ParkingLot :=
  match v.spot_index with
  | some held => (.alreadyHeld held, v, lot)
  | none =>
    match lot.find_single_spot with
    | some idx =>
      (.granted idx, { v with spot_index := some idx },
        { lot with spots := lot.spots.set idx true })
    | none => (.noCapacity, v, lot)

/-- Mirrors `Car.yield_spot`: range check (`idx < 0 or idx >= capacity`),
then held check, then match check, then release of the single spot. -/
def Car.yield_spot (v : Vehicle) (lot : ParkingLot) (idx : Int) :
    YieldResult × Vehicle × ParkingLot :=
  if idx < 0 ∨ (lot.capacity : Int) ≤ idx then (.invalidIndex, v, lot)
  else
    match v.spot_index with
    | none => (.notHeld, v, lot)
    | some held =>
      if (held : Int) ≠ idx then (.indexMismatch held, v, lot)
      else (.ok, { v with spot_index := none },
        { lot with spots := lot.spots.set held false })

/-- Mirrors `Truck.request_spot`: fail if already parked, else first-fit
search for an adjacent pair plus commit of both spots. -/
def Truck.request_spot (v : Vehicle) (lot : ParkingLot) :
    RequestResult × Vehicle × ParkingLot :=
  match v.spot_index with
  | some held => (.alreadyHeld held, v, lot)
  | none =>
    match lot.find_adjacent_spots with
    | some idx =>
      (.granted idx, { v with spot_index := some idx },
        { lot with spots := (lot.spots.set idx true).set (idx + 1) true })
    | none => (.noCapacity, v, lot)

/-- Mirrors `Truck.yield_spot`: range check
(`idx < 0 or idx >= capacity - 1`, in Python's untruncated integers), then
held check, then match check, then release of both spots. -/
def Truck.yield_spot (v : Vehicle) (lot : ParkingLot) (idx : Int) :
    YieldResult × Vehicle × ParkingLot :=
  if idx < 0 ∨ (lot.capacity : Int) - 1 ≤ idx then (.invalidIndex, v, lot)
  else
    match v.spot_index with
    | none => (.notHeld, v, lot)
    | some held =>
      if (held : Int) ≠ idx then (.indexMismatch held, v, lot)
      else (.ok, { v with spot_index := none },
        { lot with spots := (lot.spots.set held false).set (held + 1) false })

/-- Dynamic dispatch of `request_spot` on the object's class. -/
def Vehicle.request_spot (v : Vehicle) (lot : ParkingLot) :
    RequestResult × Vehicle × ParkingLot :=
  match v.vehicleType with
  | .CAR => Car.request_spot v lot
  | .TRUCK => Truck.request_spot v lot

/-- Dynamic dispatch of `yield_spot` on the object's class. -/
def Vehicle.yield_spot (v : Vehicle) (lot : ParkingLot) (idx : Int) :
    YieldResult × Vehicle × ParkingLot :=
  match v.vehicleType with
  | .CAR => Car.yield_spot v lot idx
  | .TRUCK => Truck.yield_spot v lot idx

/-- One client operation, addressed to the reservation at position `p` of
the vehicle collection.  Since every method runs under the lot's lock, any
concurrent history is observationally one such sequence. -/
inductive Op where
  | request (p : Nat)
  | yieldAt (p : Nat) (idx : Int)

/-- A lot together with the collection of reservation handles bound to it. -/
structure SysState where
  lot : ParkingLot
  vehicles : List Vehicle

/-- Execute one operation; an out-of-range handle position is a no-op. -/
def SysState.step (s : SysState) : Op → SysState
  | .request p =>
    match s.vehicles[p]? with
    | none => s
    | some v =>
      let r := Vehicle.request_spot v s.lot
      { lot := r.2.2, vehicles := s.vehicles.set p r.2.1 }
  | .yieldAt p idx =>
    match s.vehicles[p]? with
    | none => s
    | some v =>
      let r := Vehicle.yield_spot v s.lot idx
      { lot := r.2.2, vehicles := s.vehicles.set p r.2.1 }

/-- Execute a sequence of operations. -/
def SysState.run (s : SysState) : List Op → SysState
  | [] => s
  | op :: ops => (s.step op).run ops

/-- The spot indices a reservation currently holds: a parked car holds
`[i]`, a parked truck `[i, i+1]`, an unparked vehicle nothing. -/
def Vehicle.spotSet (v : Vehicle) : List Nat :=
  match v.spot_index with
  | none => []
  | some i =>
    match v.vehicleType with
    | .CAR => [i]
    | .TRUCK => [i, i + 1]

/-- Total number of spots held across a collection of reservations
(1 per parked car, 2 per parked truck). -/
def sumWeights (vs : List Vehicle) : Nat :=
  (vs.map (fun v => v.spotSet.length)).sum

/-- Inductive invariant of the system: the occupancy array keeps its length,
every held spot is in range and marked occupied, distinct reservations hold
disjoint spot sets, and the occupied count equals the total weight of the
held reservations. -/
def Inv (lot : ParkingLot) (vs : List Vehicle) : Prop :=
  lot.spots.length = lot.capacity ∧
  (∀ (p : Nat) (v : Vehicle), vs[p]? = some v → ∀ j ∈ v.spotSet,
    j < lot.capacity ∧ lot.spot j = true) ∧
  (∀ (p q : Nat) (vp vq : Vehicle), p ≠ q →
    vs[p]? = some vp → vs[q]? = some vq →
    ∀ j ∈ vp.spotSet, j ∉ vq.spotSet) ∧
  lot.occupied = sumWeights vs

/-! ### List helper lemmas -/

/-- Setting a list position to the value it already holds is the identity. -/
lemma set_getElem?_self {α : Type} (l : List α) (p : Nat) (v : α)
    (h : l[p]? = some v) : l.set p v = l := by
  induction l generalizing p with
  | nil => simp [List.set]
  | cons x xs ih =>
    cases p with
    | zero => simp at h; simp [List.set, h]
    | succ n =>
      simp only [List.getElem?_cons_succ] at h
      simp [List.set, ih n h]

/-- A successful indexed lookup implies the index is in range. -/
lemma lt_length_of_getElem? {α : Type} {l : List α} {p : Nat} {v : α}
    (h : l[p]? = some v) : p < l.length := by
  obtain ⟨h1, -⟩ := List.getElem?_eq_some.mp h
  exact h1

/-- Reading back the position just written. -/
lemma getD_set_self (l : List Bool) (i : Nat) (a : Bool) (h : i < l.length) :
    (l.set i a).getD i false = a := by
  rw [List.getD_eq_getElem?_getD, List.getElem?_set_eq_of_lt a h]
  rfl

/-- Reading a position other than the one written. -/
lemma getD_set_ne (l : List Bool) {i j : Nat} (a : Bool) (h : i ≠ j) :
    (l.set i a).getD j false = l.getD j false := by
  rw [List.getD_eq_getElem?_getD, List.getElem?_set_ne h,
    ← List.getD_eq_getElem?_getD]

/-- How one write moves the occupied sum, stated additively to avoid `Nat`
subtraction. -/
lemma sum_map_set (l : List Bool) (i : Nat) (a : Bool) (h : i < l.length) :
    ((l.set i a).map boolToNat).sum + boolToNat (l.getD i false) =
      (l.map boolToNat).sum + boolToNat a := by
  induction l generalizing i with
  | nil => simp at h
  | cons x xs ih =>
    cases i with
    | zero => simp [List.set]; omega
    | succ n =>
      have hn : n < xs.length := by simpa using h
      have := ih n hn
      simp only [List.set, List.map_cons, List.sum_cons, List.getD_cons_succ]
      omega

/-- How replacing one handle moves the total held weight, stated additively. -/
lemma sumWeights_set (vs : List Vehicle) (p : Nat) (v v' : Vehicle)
    (h : vs[p]? = some v) :
    sumWeights (vs.set p v') + v.spotSet.length =
      sumWeights vs + v'.spotSet.length := by
  induction vs generalizing p with
  | nil => simp at h
  | cons x xs ih =>
    cases p with
    | zero =>
      simp only [List.getElem?_cons_zero, Option.some.injEq] at h
      subst h
      simp [sumWeights, List.set]
      omega
    | succ n =>
      simp only [List.getElem?_cons_succ] at h
      have := ih n h
      simp only [sumWeights, List.set, List.map_cons, List.sum_cons] at this ⊢
      omega

/-! ### Characterization of the first-fit searches -/

/-- Soundness of the single-spot scan: a hit is the least free index in the
scanned window. -/
lemma findSingleFrom_some (lot : ParkingLot) :
    ∀ fuel i k, findSingleFrom lot fuel i = some k →
      i ≤ k ∧ k < i + fuel ∧ lot.spot k = false ∧
        ∀ j, i ≤ j → j < k → lot.spot j = true := by
  intro fuel
  induction fuel with
  | zero => intro i k h; simp [findSingleFrom] at h
  | succ n ih =>
    intro i k h
    by_cases hb : lot.spot i = true
    · rw [findSingleFrom, if_pos hb] at h
      obtain ⟨h1, h2, h3, h4⟩ := ih (i + 1) k h
      refine ⟨by omega, by omega, h3, fun j hj1 hj2 => ?_⟩
      rcases Nat.eq_or_lt_of_le hj1 with heq | hlt
      · rw [← heq]; exact hb
      · exact h4 j hlt hj2
    · rw [findSingleFrom, if_neg hb] at h
      cases h
      exact ⟨le_refl _, by omega, by simpa using hb,
        fun j hj1 hj2 => absurd (Nat.lt_of_le_of_lt hj1 hj2) (lt_irrefl _)⟩

/-- Completeness of the single-spot scan: a miss means the whole scanned
window is occupied. -/
lemma findSingleFrom_none (lot : ParkingLot) :
    ∀ fuel i, findSingleFrom lot fuel i = none →
      ∀ j, i ≤ j → j < i + fuel → lot.spot j = true := by
  intro fuel
  induction fuel with
  | zero => intro i _ j hj1 hj2; omega
  | succ n ih =>
    intro i h j hj1 hj2
    by_cases hb : lot.spot i = true
    · rw [findSingleFrom, if_pos hb] at h
      rcases Nat.eq_or_lt_of_le hj1 with heq | hlt
      · rw [← heq]; exact hb
      · exact ih (i + 1) h j hlt (by omega)
    · rw [findSingleFrom, if_neg hb] at h
      exact absurd h (by simp)

/-- Soundness of the adjacent-pair scan. -/
lemma findAdjacentFrom_some (lot : ParkingLot) :
    ∀ fuel i k, findAdjacentFrom lot fuel i = some k →
      i ≤ k ∧ k < i + fuel ∧ lot.spot k = false ∧ lot.spot (k + 1) = false ∧
        ∀ j, i ≤ j → j < k → (lot.spot j = true ∨ lot.spot (j + 1) = true) := by
  intro fuel
  induction fuel with
  | zero => intro i k h; simp [findAdjacentFrom] at h
  | succ n ih =>
    intro i k h
    by_cases hb : (lot.spot i || lot.spot (i + 1)) = true
    · rw [findAdjacentFrom, if_pos hb] at h
      obtain ⟨h1, h2, h3, h4, h5⟩ := ih (i + 1) k h
      refine ⟨by omega, by omega, h3, h4, fun j hj1 hj2 => ?_⟩
      rcases Nat.eq_or_lt_of_le hj1 with heq | hlt
      · rw [← heq]; simpa using hb
      · exact h5 j hlt hj2
    · rw [findAdjacentFrom, if_neg hb] at h
      cases h
      simp only [Bool.or_eq_true, not_or, Bool.not_eq_true] at hb
      exact ⟨le_refl _, by omega, hb.1, hb.2,
        fun j hj1 hj2 => absurd (Nat.lt_of_le_of_lt hj1 hj2) (lt_irrefl _)⟩

/-- Completeness of the adjacent-pair scan. -/
lemma findAdjacentFrom_none (lot : ParkingLot) :
    ∀ fuel i, findAdjacentFrom lot fuel i = none →
      ∀ j, i ≤ j → j < i + fuel →
        (lot.spot j = true ∨ lot.spot (j + 1) = true) := by
  intro fuel
  induction fuel with
  | zero => intro i _ j hj1 hj2; omega
  | succ n ih =>
    intro i h j hj1 hj2
    by_cases hb : (lot.spot i || lot.spot (i + 1)) = true
    · rw [findAdjacentFrom, if_pos hb] at h
      rcases Nat.eq_or_lt_of_le hj1 with heq | hlt
      · rw [← heq]; simpa using hb
      · exact ih (i + 1) h j hlt (by omega)
    · rw [findAdjacentFrom, if_neg hb] at h
      exact absurd h (by simp)

/-- What a successful `_find_single_spot` guarantees. -/
lemma find_single_spot_some (lot : ParkingLot) (k : Nat)
    (h : lot.find_single_spot = some k) :
    k < lot.capacity ∧ lot.spot k = false ∧ ∀ j, j < k → lot.spot j = true := by
  obtain ⟨-, h2, h3, h4⟩ := findSingleFrom_some lot lot.capacity 0 k h
  exact ⟨by omega, h3, fun j hj => h4 j (Nat.zero_le j) hj⟩

/-- What a failing `_find_single_spot` guarantees. -/
lemma find_single_spot_none (lot : ParkingLot)
    (h : lot.find_single_spot = none) :
    ∀ j, j < lot.capacity → lot.spot j = true := fun j hj =>
  findSingleFrom_none lot lot.capacity 0 h j (Nat.zero_le j) (by omega)

/-- What a successful `_find_adjacent_spots` guarantees. -/
lemma find_adjacent_spots_some (lot : ParkingLot) (k : Nat)
    (h : lot.find_adjacent_spots = some k) :
    k + 1 < lot.capacity ∧ lot.spot k = false ∧ lot.spot (k + 1) = false ∧
      ∀ j, j < k → (lot.spot j = true ∨ lot.spot (j + 1) = true) := by
  obtain ⟨-, h2, h3, h4, h5⟩ :=
    findAdjacentFrom_some lot (lot.capacity - 1) 0 k h
  exact ⟨by omega, h3, h4, fun j hj => h5 j (Nat.zero_le j) hj⟩

/-- What a failing `_find_adjacent_spots` guarantees. -/
lemma find_adjacent_spots_none (lot : ParkingLot)
    (h : lot.find_adjacent_spots = none) :
    ∀ j, j + 1 < lot.capacity →
      (lot.spot j = true ∨ lot.spot (j + 1) = true) := fun j hj =>
  findAdjacentFrom_none lot (lot.capacity - 1) 0 h j (Nat.zero_le j) (by omega)

/-! ### The invariant holds initially and is preserved by every step -/

/-- A successful indexed lookup yields a member of the list. -/
lemma mem_of_getElem? {α : Type} {l : List α} {p : Nat} {v : α}
    (h : l[p]? = some v) : v ∈ l := by
  obtain ⟨hlt, heq⟩ := List.getElem?_eq_some.mp h
  exact heq ▸ List.getElem_mem hlt

/-- A fresh lot with any collection of unparked reservations satisfies the
invariant. -/
lemma Inv_init (c : Nat) (vs : List Vehicle)
    (h : ∀ v ∈ vs, v.spot_index = none) : Inv (ParkingLot.init c) vs := by
  have hss : ∀ v ∈ vs, Vehicle.spotSet v = [] := by
    intro v hv; simp [Vehicle.spotSet, h v hv]
  refine ⟨by simp [ParkingLot.init], ?_, ?_, ?_⟩
  · intro p v hp j hj
    rw [hss v (mem_of_getElem? hp)] at hj
    simp at hj
  · intro p q vp vq hpq hp hq j hj
    rw [hss vp (mem_of_getElem? hp)] at hj
    simp at hj
  · have h0 : sumWeights vs = 0 := by
      apply List.sum_eq_zero
      intro x hx
      obtain ⟨v, hv, rfl⟩ := List.mem_map.mp hx
      rw [hss v hv]
      rfl
    simp [ParkingLot.occupied, ParkingLot.init, boolToNat, h0]

/-- Committing a freshly found single spot to an unparked car preserves the
invariant. -/
lemma Inv_commit_car (lot : ParkingLot) (vs : List Vehicle) (p idx : Nat)
    (v : Vehicle) (hinv : Inv lot vs) (hv : vs[p]? = some v)
    (hty : v.vehicleType = .CAR) (hnone : v.spot_index = none)
    (hidx : idx < lot.capacity) (hfree : lot.spot idx = false) :
    Inv { lot with spots := lot.spots.set idx true }
      (vs.set p { v with spot_index := some idx }) := by
  obtain ⟨hlen, hheld, hdisj, hcount⟩ := hinv
  have hplen : p < vs.length := lt_length_of_getElem? hv
  have hidxlen : idx < lot.spots.length := by omega
  have hss : Vehicle.spotSet { v with spot_index := some idx } = [idx] := by
    simp [Vehicle.spotSet, hty]
  have hssold : Vehicle.spotSet v = [] := by simp [Vehicle.spotSet, hnone]
  have hnotin : ∀ (q : Nat) (w : Vehicle), vs[q]? = some w →
      idx ∉ w.spotSet := by
    intro q w hq hin
    have h2 := (hheld q w hq idx hin).2
    simp only [ParkingLot.spot] at h2 hfree
    rw [hfree] at h2
    exact Bool.false_ne_true h2
  refine ⟨by simpa using hlen, ?_, ?_, ?_⟩
  · intro q w hq j hj
    by_cases hqp : q = p
    · subst hqp
      rw [List.getElem?_set_eq_of_lt _ hplen] at hq
      simp only [Option.some.injEq] at hq
      subst hq
      rw [hss] at hj
      simp only [List.mem_singleton] at hj
      subst hj
      refine ⟨hidx, ?_⟩
      simp only [ParkingLot.spot]
      exact getD_set_self _ _ _ hidxlen
    · rw [List.getElem?_set_ne (fun h => hqp h.symm)] at hq
      obtain ⟨hj1, hj2⟩ := hheld q w hq j hj
      refine ⟨hj1, ?_⟩
      have hne : idx ≠ j := fun he => hnotin q w hq (he ▸ hj)
      simp only [ParkingLot.spot]
      rw [getD_set_ne _ _ hne]
      exact hj2
  · intro q r wq wr hqr hq hr j hjq
    by_cases hqp : q = p
    · subst hqp
      rw [List.getElem?_set_eq_of_lt _ hplen] at hq
      simp only [Option.some.injEq] at hq
      subst hq
      rw [hss] at hjq
      simp only [List.mem_singleton] at hjq
      subst hjq
      rw [List.getElem?_set_ne hqr] at hr
      exact hnotin r wr hr
    · rw [List.getElem?_set_ne (fun h => hqp h.symm)] at hq
      by_cases hrp : r = p
      · subst hrp
        rw [List.getElem?_set_eq_of_lt _ hplen] at hr
        simp only [Option.some.injEq] at hr
        subst hr
        rw [hss]
        simp only [List.mem_singleton]
        intro hje
        subst hje
        exact hnotin q wq hq hjq
      · rw [List.getElem?_set_ne (fun h => hrp h.symm)] at hr
        exact hdisj q r wq wr hqr hq hr j hjq
  · have hsum := sum_map_set lot.spots idx true hidxlen
    simp only [ParkingLot.spot] at hfree
    rw [hfree, show boolToNat false = 0 from rfl,
      show boolToNat true = 1 from rfl] at hsum
    have hw := sumWeights_set vs p v { v with spot_index := some idx } hv
    rw [hssold, hss] at hw
    simp only [List.length_nil, List.length_singleton] at hw
    simp only [ParkingLot.occupied] at hcount ⊢
    omega

/-- Committing a freshly found adjacent pair to an unparked truck preserves
the invariant. -/
lemma Inv_commit_truck (lot : ParkingLot) (vs : List Vehicle) (p idx : Nat)
    (v : Vehicle) (hinv : Inv lot vs) (hv : vs[p]? = some v)
    (hty : v.vehicleType = .TRUCK) (hnone : v.spot_index = none)
    (hidx : idx + 1 < lot.capacity)
    (hfree0 : lot.spot idx = false) (hfree1 : lot.spot (idx + 1) = false) :
    Inv { lot with spots := (lot.spots.set idx true).set (idx + 1) true }
      (vs.set p { v with spot_index := some idx }) := by
  obtain ⟨hlen, hheld, hdisj, hcount⟩ := hinv
  have hplen : p < vs.length := lt_length_of_getElem? hv
  have hidxlen0 : idx < lot.spots.length := by omega
  have hidxlen1 : idx + 1 < lot.spots.length := by omega
  have hss : Vehicle.spotSet { v with spot_index := some idx } =
      [idx, idx + 1] := by
    simp [Vehicle.spotSet, hty]
  have hssold : Vehicle.spotSet v = [] := by simp [Vehicle.spotSet, hnone]
  have hnotin : ∀ (q : Nat) (w : Vehicle), vs[q]? = some w →
      idx ∉ w.spotSet ∧ idx + 1 ∉ w.spotSet := by
    intro q w hq
    constructor
    · intro hin
      have h2 := (hheld q w hq idx hin).2
      simp only [ParkingLot.spot] at h2 hfree0
      rw [hfree0] at h2
      exact Bool.false_ne_true h2
    · intro hin
      have h2 := (hheld q w hq (idx + 1) hin).2
      simp only [ParkingLot.spot] at h2 hfree1
      rw [hfree1] at h2
      exact Bool.false_ne_true h2
  have hspot0 :
      (ParkingLot.mk lot.capacity
        ((lot.spots.set idx true).set (idx + 1) true)).spot idx = true := by
    simp only [ParkingLot.spot]
    rw [getD_set_ne _ _ (by omega), getD_set_self _ _ _ hidxlen0]
  have hspot1 :
      (ParkingLot.mk lot.capacity
        ((lot.spots.set idx true).set (idx + 1) true)).spot (idx + 1) =
        true := by
    simp only [ParkingLot.spot]
    rw [getD_set_self _ _ _ (by simpa using hidxlen1)]
  refine ⟨by simpa using hlen, ?_, ?_, ?_⟩
  · intro q w hq j hj
    by_cases hqp : q = p
    · subst hqp
      rw [List.getElem?_set_eq_of_lt _ hplen] at hq
      simp only [Option.some.injEq] at hq
      subst hq
      rw [hss] at hj
      simp only [List.mem_cons, List.mem_singleton, List.not_mem_nil,
        or_false] at hj
      rcases hj with rfl | rfl
      · exact ⟨Nat.lt_of_succ_lt hidx, hspot0⟩
      · exact ⟨hidx, hspot1⟩
    · rw [List.getElem?_set_ne (fun h => hqp h.symm)] at hq
      obtain ⟨hj1, hj2⟩ := hheld q w hq j hj
      refine ⟨hj1, ?_⟩
      have hne0 : idx ≠ j := fun he => (hnotin q w hq).1 (he ▸ hj)
      have hne1 : idx + 1 ≠ j := fun he => (hnotin q w hq).2 (he ▸ hj)
      simp only [ParkingLot.spot]
      rw [getD_set_ne _ _ hne1, getD_set_ne _ _ hne0]
      exact hj2
  · intro q r wq wr hqr hq hr j hjq
    by_cases hqp : q = p
    · subst hqp
      rw [List.getElem?_set_eq_of_lt _ hplen] at hq
      simp only [Option.some.injEq] at hq
      subst hq
      rw [hss] at hjq
      simp only [List.mem_cons, List.mem_singleton, List.not_mem_nil,
        or_false] at hjq
      rw [List.getElem?_set_ne hqr] at hr
      rcases hjq with rfl | rfl
      · exact (hnotin r wr hr).1
      · exact (hnotin r wr hr).2
    · rw [List.getElem?_set_ne (fun h => hqp h.symm)] at hq
      by_cases hrp : r = p
      · subst hrp
        rw [List.getElem?_set_eq_of_lt _ hplen] at hr
        simp only [Option.some.injEq] at hr
        subst hr
        rw [hss]
        simp only [List.mem_cons, List.mem_singleton, List.not_mem_nil,
          or_false]
        push_neg
        exact ⟨fun he => (hnotin q wq hq).1 (he ▸ hjq),
          fun he => (hnotin q wq hq).2 (he ▸ hjq)⟩
      · rw [List.getElem?_set_ne (fun h => hrp h.symm)] at hr
        exact hdisj q r wq wr hqr hq hr j hjq
  · have hsum0 := sum_map_set lot.spots idx true hidxlen0
    rw [show lot.spots.getD idx false = false from hfree0,
      show boolToNat false = 0 from rfl,
      show boolToNat true = 1 from rfl] at hsum0
    have hsum1 := sum_map_set (lot.spots.set idx true) (idx + 1) true
      (by simpa using hidxlen1)
    rw [show (lot.spots.set idx true).getD (idx + 1) false = false by
        rw [getD_set_ne _ _ (by omega)]; exact hfree1,
      show boolToNat false = 0 from rfl,
      show boolToNat true = 1 from rfl] at hsum1
    have hw := sumWeights_set vs p v { v with spot_index := some idx } hv
    rw [hssold, hss] at hw
    simp only [List.length_nil, List.length_cons, List.length_singleton]
      at hw
    simp only [ParkingLot.occupied] at hcount ⊢
    omega

/-- Releasing the spot a car holds preserves the invariant. -/
lemma Inv_release_car (lot : ParkingLot) (vs : List Vehicle) (p j : Nat)
    (v : Vehicle) (hinv : Inv lot vs) (hv : vs[p]? = some v)
    (hty : v.vehicleType = .CAR) (hheldv : v.spot_index = some j) :
    Inv { lot with spots := lot.spots.set j false }
      (vs.set p { v with spot_index := none }) := by
  obtain ⟨hlen, hheld, hdisj, hcount⟩ := hinv
  have hplen : p < vs.length := lt_length_of_getElem? hv
  have hssold : Vehicle.spotSet v = [j] := by
    simp [Vehicle.spotSet, hheldv, hty]
  have hss : Vehicle.spotSet { v with spot_index := none } = [] := by
    simp [Vehicle.spotSet]
  have hj := hheld p v hv j (by rw [hssold]; simp)
  have hjlen : j < lot.spots.length := by
    have := hj.1
    omega
  have hother : ∀ (q : Nat) (w : Vehicle), q ≠ p → vs[q]? = some w →
      j ∉ w.spotSet := by
    intro q w hqp hq hin
    exact hdisj q p w v hqp hq hv j hin (by rw [hssold]; simp)
  refine ⟨by simpa using hlen, ?_, ?_, ?_⟩
  · intro q w hq j' hj'
    by_cases hqp : q = p
    · subst hqp
      rw [List.getElem?_set_eq_of_lt _ hplen] at hq
      simp only [Option.some.injEq] at hq
      subst hq
      rw [hss] at hj'
      simp at hj'
    · rw [List.getElem?_set_ne (fun h => hqp h.symm)] at hq
      obtain ⟨h1, h2⟩ := hheld q w hq j' hj'
      refine ⟨h1, ?_⟩
      have hne : j ≠ j' := fun he => hother q w hqp hq (he ▸ hj')
      simp only [ParkingLot.spot]
      rw [getD_set_ne _ _ hne]
      exact h2
  · intro q r wq wr hqr hq hr j' hjq
    by_cases hqp : q = p
    · subst hqp
      rw [List.getElem?_set_eq_of_lt _ hplen] at hq
      simp only [Option.some.injEq] at hq
      subst hq
      rw [hss] at hjq
      simp at hjq
    · rw [List.getElem?_set_ne (fun h => hqp h.symm)] at hq
      by_cases hrp : r = p
      · subst hrp
        rw [List.getElem?_set_eq_of_lt _ hplen] at hr
        simp only [Option.some.injEq] at hr
        subst hr
        rw [hss]
        simp
      · rw [List.getElem?_set_ne (fun h => hrp h.symm)] at hr
        exact hdisj q r wq wr hqr hq hr j' hjq
  · have hsum := sum_map_set lot.spots j false hjlen
    rw [show lot.spots.getD j false = true from hj.2,
      show boolToNat true = 1 from rfl,
      show boolToNat false = 0 from rfl] at hsum
    have hw := sumWeights_set vs p v { v with spot_index := none } hv
    rw [hssold, hss] at hw
    simp only [List.length_nil, List.length_singleton] at hw
    simp only [ParkingLot.occupied] at hcount ⊢
    omega

/-- Releasing the pair a truck holds preserves the invariant. -/
lemma Inv_release_truck (lot : ParkingLot) (vs : List Vehicle) (p j : Nat)
    (v : Vehicle) (hinv : Inv lot vs) (hv : vs[p]? = some v)
    (hty : v.vehicleType = .TRUCK) (hheldv : v.spot_index = some j) :
    Inv { lot with spots := (lot.spots.set j false).set (j + 1) false }
      (vs.set p { v with spot_index := none }) := by
  obtain ⟨hlen, hheld, hdisj, hcount⟩ := hinv
  have hplen : p < vs.length := lt_length_of_getElem? hv
  have hssold : Vehicle.spotSet v = [j, j + 1] := by
    simp [Vehicle.spotSet, hheldv, hty]
  have hss : Vehicle.spotSet { v with spot_index := none } = [] := by
    simp [Vehicle.spotSet]
  have hj0 := hheld p v hv j (by rw [hssold]; simp)
  have hj1 := hheld p v hv (j + 1) (by rw [hssold]; simp)
  have hjlen0 : j < lot.spots.length := by
    have := hj0.1
    omega
  have hjlen1 : j + 1 < lot.spots.length := by
    have := hj1.1
    omega
  have hother : ∀ (q : Nat) (w : Vehicle), q ≠ p → vs[q]? = some w →
      j ∉ w.spotSet ∧ j + 1 ∉ w.spotSet := by
    intro q w hqp hq
    exact ⟨fun hin => hdisj q p w v hqp hq hv j hin (by rw [hssold]; simp),
      fun hin => hdisj q p w v hqp hq hv (j + 1) hin (by rw [hssold]; simp)⟩
  refine ⟨by simpa using hlen, ?_, ?_, ?_⟩
  · intro q w hq j' hj'
    by_cases hqp : q = p
    · subst hqp
      rw [List.getElem?_set_eq_of_lt _ hplen] at hq
      simp only [Option.some.injEq] at hq
      subst hq
      rw [hss] at hj'
      simp at hj'
    · rw [List.getElem?_set_ne (fun h => hqp h.symm)] at hq
      obtain ⟨h1, h2⟩ := hheld q w hq j' hj'
      refine ⟨h1, ?_⟩
      have hne0 : j ≠ j' := fun he => (hother q w hqp hq).1 (he ▸ hj')
      have hne1 : j + 1 ≠ j' := fun he => (hother q w hqp hq).2 (he ▸ hj')
      simp only [ParkingLot.spot]
      rw [getD_set_ne _ _ hne1, getD_set_ne _ _ hne0]
      exact h2
  · intro q r wq wr hqr hq hr j' hjq
    by_cases hqp : q = p
    · subst hqp
      rw [List.getElem?_set_eq_of_lt _ hplen] at hq
      simp only [Option.some.injEq] at hq
      subst hq
      rw [hss] at hjq
      simp at hjq
    · rw [List.getElem?_set_ne (fun h => hqp h.symm)] at hq
      by_cases hrp : r = p
      · subst hrp
        rw [List.getElem?_set_eq_of_lt _ hplen] at hr
        simp only [Option.some.injEq] at hr
        subst hr
        rw [hss]
        simp
      · rw [List.getElem?_set_ne (fun h => hrp h.symm)] at hr
        exact hdisj q r wq wr hqr hq hr j' hjq
  · have hsum0 := sum_map_set lot.spots j false hjlen0
    rw [show lot.spots.getD j false = true from hj0.2,
      show boolToNat true = 1 from rfl,
      show boolToNat false = 0 from rfl] at hsum0
    have hsum1 := sum_map_set (lot.spots.set j false) (j + 1) false
      (by simpa using hjlen1)
    rw [show (lot.spots.set j false).getD (j + 1) false = true by
        rw [getD_set_ne _ _ (by omega)]; exact hj1.2,
      show boolToNat true = 1 from rfl,
      show boolToNat false = 0 from rfl] at hsum1
    have hw := sumWeights_set vs p v { v with spot_index := none } hv
    rw [hssold, hss] at hw
    simp only [List.length_nil, List.length_cons, List.length_singleton]
      at hw
    simp only [ParkingLot.occupied] at hcount ⊢
    omega

/-! ### Branch equations for the four public methods -/

/-- Both classes reject a request while already parked, without touching any
state. -/
lemma request_already (v : Vehicle) (lot : ParkingLot) (held : Nat)
    (h : v.spot_index = some held) :
    Vehicle.request_spot v lot = (.alreadyHeld held, v, lot) := by
  cases hty : v.vehicleType <;>
    simp [Vehicle.request_spot, Car.request_spot, Truck.request_spot, hty, h]

/-- A car request that finds a free spot commits it. -/
lemma car_granted (v : Vehicle) (lot : ParkingLot) (idx : Nat)
    (hty : v.vehicleType = .CAR) (hnone : v.spot_index = none)
    (hfind : lot.find_single_spot = some idx) :
    Vehicle.request_spot v lot =
      (.granted idx, { v with spot_index := some idx },
        { lot with spots := lot.spots.set idx true }) := by
  simp [Vehicle.request_spot, Car.request_spot, hty, hnone, hfind]

/-- A car request with no free spot reports no capacity and changes
nothing. -/
lemma car_nocap (v : Vehicle) (lot : ParkingLot)
    (hty : v.vehicleType = .CAR) (hnone : v.spot_index = none)
    (hfind : lot.find_single_spot = none) :
    Vehicle.request_spot v lot = (.noCapacity, v, lot) := by
  simp [Vehicle.request_spot, Car.request_spot, hty, hnone, hfind]

/-- A truck request that finds a free adjacent pair commits both spots. -/
lemma truck_granted (v : Vehicle) (lot : ParkingLot) (idx : Nat)
    (hty : v.vehicleType = .TRUCK) (hnone : v.spot_index = none)
    (hfind : lot.find_adjacent_spots = some idx) :
    Vehicle.request_spot v lot =
      (.granted idx, { v with spot_index := some idx },
        { lot with spots := (lot.spots.set idx true).set (idx + 1) true }) := by
  simp [Vehicle.request_spot, Truck.request_spot, hty, hnone, hfind]

/-- A truck request with no free adjacent pair reports no capacity and
changes nothing. -/
lemma truck_nocap (v : Vehicle) (lot : ParkingLot)
    (hty : v.vehicleType = .TRUCK) (hnone : v.spot_index = none)
    (hfind : lot.find_adjacent_spots = none) :
    Vehicle.request_spot v lot = (.noCapacity, v, lot) := by
  simp [Vehicle.request_spot, Truck.request_spot, hty, hnone, hfind]

/-- Car yield with an out-of-range index fails first, whatever the held
state. -/
lemma car_yield_invalid (v : Vehicle) (lot : ParkingLot) (idx : Int)
    (h : idx < 0 ∨ (lot.capacity : Int) ≤ idx) :
    Car.yield_spot v lot idx = (.invalidIndex, v, lot) := by
  simp only [Car.yield_spot]
  rw [if_pos h]

/-- Car yield with an in-range index on an unparked car reports not held. -/
lemma car_yield_notHeld (v : Vehicle) (lot : ParkingLot) (idx : Int)
    (h : ¬(idx < 0 ∨ (lot.capacity : Int) ≤ idx))
    (hn : v.spot_index = none) :
    Car.yield_spot v lot idx = (.notHeld, v, lot) := by
  simp only [Car.yield_spot, hn]
  rw [if_neg h]

/-- Car yield with an in-range index different from the held one reports a
mismatch. -/
lemma car_yield_mismatch (v : Vehicle) (lot : ParkingLot) (idx : Int)
    (held : Nat) (h : ¬(idx < 0 ∨ (lot.capacity : Int) ≤ idx))
    (hs : v.spot_index = some held) (hne : (held : Int) ≠ idx) :
    Car.yield_spot v lot idx = (.indexMismatch held, v, lot) := by
  simp only [Car.yield_spot, hs]
  rw [if_neg h, if_pos hne]

/-- Car yield of the actually held, in-range index releases the spot. -/
lemma car_yield_ok (v : Vehicle) (lot : ParkingLot) (idx : Int) (held : Nat)
    (h : ¬(idx < 0 ∨ (lot.capacity : Int) ≤ idx))
    (hs : v.spot_index = some held) (heq : ¬((held : Int) ≠ idx)) :
    Car.yield_spot v lot idx =
      (.ok, { v with spot_index := none },
        { lot with spots := lot.spots.set held false }) := by
  simp only [Car.yield_spot, hs]
  rw [if_neg h, if_neg heq]

/-- Truck yield with an index outside the pair-start range fails first,
whatever the held state. -/
lemma truck_yield_invalid (v : Vehicle) (lot : ParkingLot) (idx : Int)
    (h : idx < 0 ∨ (lot.capacity : Int) - 1 ≤ idx) :
    Truck.yield_spot v lot idx = (.invalidIndex, v, lot) := by
  simp only [Truck.yield_spot]
  rw [if_pos h]

/-- Truck yield with an in-range index on an unparked truck reports not
held. -/
lemma truck_yield_notHeld (v : Vehicle) (lot : ParkingLot) (idx : Int)
    (h : ¬(idx < 0 ∨ (lot.capacity : Int) - 1 ≤ idx))
    (hn : v.spot_index = none) :
    Truck.yield_spot v lot idx = (.notHeld, v, lot) := by
  simp only [Truck.yield_spot, hn]
  rw [if_neg h]

/-- Truck yield with an in-range index different from the held one reports
a mismatch. -/
lemma truck_yield_mismatch (v : Vehicle) (lot : ParkingLot) (idx : Int)
    (held : Nat) (h : ¬(idx < 0 ∨ (lot.capacity : Int) - 1 ≤ idx))
    (hs : v.spot_index = some held) (hne : (held : Int) ≠ idx) :
    Truck.yield_spot v lot idx = (.indexMismatch held, v, lot) := by
  simp only [Truck.yield_spot, hs]
  rw [if_neg h, if_pos hne]

/-- Truck yield of the actually held, in-range index releases both spots. -/
lemma truck_yield_ok (v : Vehicle) (lot : ParkingLot) (idx : Int)
    (held : Nat) (h : ¬(idx < 0 ∨ (lot.capacity : Int) - 1 ≤ idx))
    (hs : v.spot_index = some held) (heq : ¬((held : Int) ≠ idx)) :
    Truck.yield_spot v lot idx =
      (.ok, { v with spot_index := none },
        { lot with spots := (lot.spots.set held false).set (held + 1) false }) := by
  simp only [Truck.yield_spot, hs]
  rw [if_neg h, if_neg heq]

/-- Dispatch equations. -/
lemma yield_dispatch_car (v : Vehicle) (lot : ParkingLot) (idx : Int)
    (hty : v.vehicleType = .CAR) :
    Vehicle.yield_spot v lot idx = Car.yield_spot v lot idx := by
  simp [Vehicle.yield_spot, hty]

/-- Dispatch equation for trucks. -/
lemma yield_dispatch_truck (v : Vehicle) (lot : ParkingLot) (idx : Int)
    (hty : v.vehicleType = .TRUCK) :
    Vehicle.yield_spot v lot idx = Truck.yield_spot v lot idx := by
  simp [Vehicle.yield_spot, hty]

/-- Every single operation preserves the invariant. -/
lemma Inv_step (lot : ParkingLot) (vs : List Vehicle) (op : Op)
    (hinv : Inv lot vs) :
    Inv (SysState.step ⟨lot, vs⟩ op).lot
      (SysState.step ⟨lot, vs⟩ op).vehicles := by
  cases op with
  | request p =>
    cases hv : vs[p]? with
    | none =>
      simp only [SysState.step, hv]
      exact hinv
    | some v =>
      cases hsi : v.spot_index with
      | some held =>
        have heq := request_already v lot held hsi
        simp only [SysState.step, hv, heq]
        rw [set_getElem?_self vs p v hv]
        exact hinv
      | none =>
        cases hty : v.vehicleType with
        | CAR =>
          cases hfind : lot.find_single_spot with
          | some idx =>
            have heq := car_granted v lot idx hty hsi hfind
            simp only [SysState.step, hv, heq]
            obtain ⟨hk, hfree, -⟩ := find_single_spot_some lot idx hfind
            exact Inv_commit_car lot vs p idx v hinv hv hty hsi hk hfree
          | none =>
            have heq := car_nocap v lot hty hsi hfind
            simp only [SysState.step, hv, heq]
            rw [set_getElem?_self vs p v hv]
            exact hinv
        | TRUCK =>
          cases hfind : lot.find_adjacent_spots with
          | some idx =>
            have heq := truck_granted v lot idx hty hsi hfind
            simp only [SysState.step, hv, heq]
            obtain ⟨hk, hfree0, hfree1, -⟩ :=
              find_adjacent_spots_some lot idx hfind
            exact Inv_commit_truck lot vs p idx v hinv hv hty hsi hk hfree0
              hfree1
          | none =>
            have heq := truck_nocap v lot hty hsi hfind
            simp only [SysState.step, hv, heq]
            rw [set_getElem?_self vs p v hv]
            exact hinv
  | yieldAt p idx =>
    cases hv : vs[p]? with
    | none =>
      simp only [SysState.step, hv]
      exact hinv
    | some v =>
      cases hty : v.vehicleType with
      | CAR =>
        have hdisp := yield_dispatch_car v lot idx hty
        by_cases hrange : idx < 0 ∨ (lot.capacity : Int) ≤ idx
        · have heq := hdisp.trans (car_yield_invalid v lot idx hrange)
          simp only [SysState.step, hv, heq]
          rw [set_getElem?_self vs p v hv]
          exact hinv
        · cases hsi : v.spot_index with
          | none =>
            have heq := hdisp.trans (car_yield_notHeld v lot idx hrange hsi)
            simp only [SysState.step, hv, heq]
            rw [set_getElem?_self vs p v hv]
            exact hinv
          | some held =>
            by_cases hne : (held : Int) ≠ idx
            · have heq :=
                hdisp.trans (car_yield_mismatch v lot idx held hrange hsi hne)
              simp only [SysState.step, hv, heq]
              rw [set_getElem?_self vs p v hv]
              exact hinv
            · have heq :=
                hdisp.trans (car_yield_ok v lot idx held hrange hsi hne)
              simp only [SysState.step, hv, heq]
              exact Inv_release_car lot vs p held v hinv hv hty hsi
      | TRUCK =>
        have hdisp := yield_dispatch_truck v lot idx hty
        by_cases hrange : idx < 0 ∨ (lot.capacity : Int) - 1 ≤ idx
        · have heq := hdisp.trans (truck_yield_invalid v lot idx hrange)
          simp only [SysState.step, hv, heq]
          rw [set_getElem?_self vs p v hv]
          exact hinv
        · cases hsi : v.spot_index with
          | none =>
            have heq := hdisp.trans (truck_yield_notHeld v lot idx hrange hsi)
            simp only [SysState.step, hv, heq]
            rw [set_getElem?_self vs p v hv]
            exact hinv
          | some held =>
            by_cases hne : (held : Int) ≠ idx
            · have heq := hdisp.trans
                (truck_yield_mismatch v lot idx held hrange hsi hne)
              simp only [SysState.step, hv, heq]
              rw [set_getElem?_self vs p v hv]
              exact hinv
            · have heq :=
                hdisp.trans (truck_yield_ok v lot idx held hrange hsi hne)
              simp only [SysState.step, hv, heq]
              exact Inv_release_truck lot vs p held v hinv hv hty hsi

/-- The invariant is preserved by any sequence of operations. -/
lemma Inv_run (lot : ParkingLot) (vs : List Vehicle) (ops : List Op)
    (hinv : Inv lot vs) :
    Inv (SysState.run ⟨lot, vs⟩ ops).lot
      (SysState.run ⟨lot, vs⟩ ops).vehicles := by
  induction ops generalizing lot vs with
  | nil => exact hinv
  | cons op ops ih =>
    simp only [SysState.run]
    exact ih (SysState.step ⟨lot, vs⟩ op).lot
      (SysState.step ⟨lot, vs⟩ op).vehicles (Inv_step lot vs op hinv)

/-- No request changes the lot's capacity. -/
lemma request_capacity (v : Vehicle) (lot : ParkingLot) :
    (Vehicle.request_spot v lot).2.2.capacity = lot.capacity := by
  cases hty : v.vehicleType
  · cases hsi : v.spot_index
    · cases hfind : lot.find_single_spot
      · rw [car_nocap v lot hty hsi hfind]
      · rw [car_granted v lot _ hty hsi hfind]
    · rw [request_already v lot _ hsi]
  · cases hsi : v.spot_index
    · cases hfind : lot.find_adjacent_spots
      · rw [truck_nocap v lot hty hsi hfind]
      · rw [truck_granted v lot _ hty hsi hfind]
    · rw [request_already v lot _ hsi]

/-- No yield changes the lot's capacity. -/
lemma yield_capacity (v : Vehicle) (lot : ParkingLot) (idx : Int) :
    (Vehicle.yield_spot v lot idx).2.2.capacity = lot.capacity := by
  cases hty : v.vehicleType with
  | CAR =>
    rw [yield_dispatch_car v lot idx hty]
    by_cases hrange : idx < 0 ∨ (lot.capacity : Int) ≤ idx
    · rw [car_yield_invalid v lot idx hrange]
    · cases hsi : v.spot_index with
      | none => rw [car_yield_notHeld v lot idx hrange hsi]
      | some held =>
        by_cases hne : (held : Int) ≠ idx
        · rw [car_yield_mismatch v lot idx held hrange hsi hne]
        · rw [car_yield_ok v lot idx held hrange hsi hne]
  | TRUCK =>
    rw [yield_dispatch_truck v lot idx hty]
    by_cases hrange : idx < 0 ∨ (lot.capacity : Int) - 1 ≤ idx
    · rw [truck_yield_invalid v lot idx hrange]
    · cases hsi : v.spot_index with
      | none => rw [truck_yield_notHeld v lot idx hrange hsi]
      | some held =>
        by_cases hne : (held : Int) ≠ idx
        · rw [truck_yield_mismatch v lot idx held hrange hsi hne]
        · rw [truck_yield_ok v lot idx held hrange hsi hne]

/-- No single operation changes the lot's capacity. -/
lemma step_capacity (lot : ParkingLot) (vs : List Vehicle) (op : Op) :
    (SysState.step ⟨lot, vs⟩ op).lot.capacity = lot.capacity := by
  cases op with
  | request p =>
    cases hv : vs[p]? with
    | none => simp only [SysState.step, hv]
    | some v =>
      simp only [SysState.step, hv]
      exact request_capacity v lot
  | yieldAt p idx =>
    cases hv : vs[p]? with
    | none => simp only [SysState.step, hv]
    | some v =>
      simp only [SysState.step, hv]
      exact yield_capacity v lot idx

/-- No sequence of operations changes the lot's capacity. -/
lemma run_capacity (lot : ParkingLot) (vs : List Vehicle) (ops : List Op) :
    (SysState.run ⟨lot, vs⟩ ops).lot.capacity = lot.capacity := by
  induction ops generalizing lot vs with
  | nil => rfl
  | cons op ops ih =>
    simp only [SysState.run]
    rw [ih (SysState.step ⟨lot, vs⟩ op).lot
      (SysState.step ⟨lot, vs⟩ op).vehicles]
    exact step_capacity lot vs op

/-- The number of `true` entries of a boolean list is the Python
`sum(spots)`. -/
lemma count_true_eq (l : List Bool) :
    l.count true = (l.map boolToNat).sum := by
  induction l with
  | nil => rfl
  | cons x xs ih =>
    cases x
    · simp [List.count_cons, boolToNat, ih]
    · simp [List.count_cons, boolToNat, ih]
      omega

/-! ### The claims -/

/-- C1: starting from a fresh lot, after any sequence of request/yield
operations by any collection of car and truck reservations, the number of
`True` entries of the occupancy array equals the sum of the spot counts of
the currently held reservations (1 per held car, 2 per held truck), and the
spot sets of distinct reservations are pairwise disjoint. -/
theorem spec_C1_conservation_and_no_overlap (c : Nat) (vs0 : List Vehicle)
    (ops : List Op) (h0 : ∀ v ∈ vs0, v.spot_index = none) :
    (SysState.run ⟨ParkingLot.init c, vs0⟩ ops).lot.spots.count true =
      sumWeights (SysState.run ⟨ParkingLot.init c, vs0⟩ ops).vehicles ∧
    (∀ (p q : Nat) (vp vq : Vehicle), p ≠ q →
      (SysState.run ⟨ParkingLot.init c, vs0⟩ ops).vehicles[p]? = some vp →
      (SysState.run ⟨ParkingLot.init c, vs0⟩ ops).vehicles[q]? = some vq →
      ∀ j ∈ vp.spotSet, j ∉ vq.spotSet) := by
  obtain ⟨-, -, hdisj, hcount⟩ :=
    Inv_run (ParkingLot.init c) vs0 ops (Inv_init c vs0 h0)
  refine ⟨?_, hdisj⟩
  rw [count_true_eq]
  exact hcount

/-- Witness for C1, at a capacity-4 lot with two cars and a truck running a
request/yield history. -/
theorem spec_C1_conservation_and_no_overlap_witness :
    (∀ v ∈ ([⟨.CAR, none⟩, ⟨.TRUCK, none⟩, ⟨.CAR, none⟩] : List Vehicle),
      v.spot_index = none) ∧
    ((SysState.run ⟨ParkingLot.init 4,
        [⟨.CAR, none⟩, ⟨.TRUCK, none⟩, ⟨.CAR, none⟩]⟩
        [Op.request 0, Op.request 1, Op.yieldAt 0 0,
          Op.request 2]).lot.spots.count true =
      sumWeights (SysState.run ⟨ParkingLot.init 4,
        [⟨.CAR, none⟩, ⟨.TRUCK, none⟩, ⟨.CAR, none⟩]⟩
        [Op.request 0, Op.request 1, Op.yieldAt 0 0,
          Op.request 2]).vehicles ∧
    (∀ (p q : Nat) (vp vq : Vehicle), p ≠ q →
      (SysState.run ⟨ParkingLot.init 4,
        [⟨.CAR, none⟩, ⟨.TRUCK, none⟩, ⟨.CAR, none⟩]⟩
        [Op.request 0, Op.request 1, Op.yieldAt 0 0,
          Op.request 2]).vehicles[p]? = some vp →
      (SysState.run ⟨ParkingLot.init 4,
        [⟨.CAR, none⟩, ⟨.TRUCK, none⟩, ⟨.CAR, none⟩]⟩
        [Op.request 0, Op.request 1, Op.yieldAt 0 0,
          Op.request 2]).vehicles[q]? = some vq →
      ∀ j ∈ vp.spotSet, j ∉ vq.spotSet)) :=
  ⟨by decide, spec_C1_conservation_and_no_overlap 4
    [⟨.CAR, none⟩, ⟨.TRUCK, none⟩, ⟨.CAR, none⟩]
    [Op.request 0, Op.request 1, Op.yieldAt 0 0, Op.request 2] (by decide)⟩

/-- C5: a truck `yield_spot(i)` fails with InvalidIndex exactly when `i` is
outside the pair-start range `[0, capacity-2]`; in particular, on a
capacity-5 lot a dual-adjacent yield with index 4 fails InvalidIndex. -/
theorem spec_C5_truck_yield_boundary (v : Vehicle) (lot : ParkingLot)
    (i : Int) :
    ((Truck.yield_spot v lot i).1 = .invalidIndex ↔
      (i < 0 ∨ (lot.capacity : Int) - 2 < i)) ∧
    (Truck.yield_spot ⟨VehicleType.TRUCK, none⟩ (ParkingLot.init 5) 4).1 =
      .invalidIndex := by
  refine ⟨⟨?_, ?_⟩, by decide⟩
  · intro h
    by_contra hc
    push_neg at hc
    have hrange : ¬(i < 0 ∨ (lot.capacity : Int) - 1 ≤ i) := by omega
    cases hsi : v.spot_index with
    | none =>
      rw [truck_yield_notHeld v lot i hrange hsi] at h
      simp at h
    | some held =>
      by_cases hne : (held : Int) ≠ i
      · rw [truck_yield_mismatch v lot i held hrange hsi hne] at h
        simp at h
      · rw [truck_yield_ok v lot i held hrange hsi hne] at h
        simp at h
  · intro h
    rw [truck_yield_invalid v lot i (by omega)]

/-- C6: a request on a reservation whose held index is currently set fails
with AlreadyHeld and changes nothing: the reservation and the occupancy
array are returned untouched. -/
theorem spec_C6_double_request_rejected (v : Vehicle) (lot : ParkingLot)
    (held : Nat) (h : v.spot_index = some held) :
    Vehicle.request_spot v lot = (.alreadyHeld held, v, lot) :=
  request_already v lot held h

/-- Witness for C6: a car already parked at spot 0. -/
theorem spec_C6_double_request_rejected_witness :
    (⟨VehicleType.CAR, some 0⟩ : Vehicle).spot_index = some 0 ∧
    Vehicle.request_spot ⟨VehicleType.CAR, some 0⟩ (ParkingLot.init 1) =
      (.alreadyHeld 0, ⟨VehicleType.CAR, some 0⟩, ParkingLot.init 1) :=
  ⟨rfl, spec_C6_double_request_rejected ⟨VehicleType.CAR, some 0⟩
    (ParkingLot.init 1) 0 rfl⟩

/-- C9: in both yield implementations the index-range check takes
precedence over the held-state checks: an out-of-range index (for the
vehicle's own kind) fails with InvalidIndex whatever the held state. -/
theorem spec_C9_range_check_precedence (v : Vehicle) (lot : ParkingLot)
    (idx : Int)
    (h : idx < 0 ∨
      (match v.vehicleType with
        | VehicleType.CAR => (lot.capacity : Int)
        | VehicleType.TRUCK => (lot.capacity : Int) - 1) ≤ idx) :
    Vehicle.yield_spot v lot idx = (.invalidIndex, v, lot) := by
  cases hty : v.vehicleType with
  | CAR =>
    rw [yield_dispatch_car v lot idx hty]
    refine car_yield_invalid v lot idx ?_
    rw [hty] at h
    simpa using h
  | TRUCK =>
    rw [yield_dispatch_truck v lot idx hty]
    refine truck_yield_invalid v lot idx ?_
    rw [hty] at h
    simpa using h

/-- Witness for C9: a truck parked at 0 asked to yield the out-of-range
pair start 4 on a capacity-5 lot still gets InvalidIndex, not a mismatch. -/
theorem spec_C9_range_check_precedence_witness :
    ((4 : Int) < 0 ∨
      (match (⟨VehicleType.TRUCK, some 0⟩ : Vehicle).vehicleType with
        | VehicleType.CAR => (((ParkingLot.init 5).capacity : Nat) : Int)
        | VehicleType.TRUCK =>
          (((ParkingLot.init 5).capacity : Nat) : Int) - 1) ≤ 4) ∧
    Vehicle.yield_spot ⟨VehicleType.TRUCK, some 0⟩ (ParkingLot.init 5) 4 =
      (.invalidIndex, ⟨VehicleType.TRUCK, some 0⟩, ParkingLot.init 5) :=
  ⟨by decide, spec_C9_range_check_precedence ⟨VehicleType.TRUCK, some 0⟩
    (ParkingLot.init 5) 4 (by decide)⟩

/-- C2 counterexample: on a full capacity-1 lot, a request by a car already
parked at 0 and a request by a second, unparked car fail for different
reasons (AlreadyHeld vs NoCapacity) yet return the identical value `None`;
likewise the two distinct yield failures InvalidIndex and NotHeld both
return `False`.  So the returned value alone does not distinguish the
failure reasons. -/
theorem spec_C2_counterexample :
    (Car.request_spot ⟨VehicleType.CAR, some 0⟩ ⟨1, [true]⟩).1 =
      .alreadyHeld 0 ∧
    (Car.request_spot ⟨VehicleType.CAR, none⟩ ⟨1, [true]⟩).1 =
      .noCapacity ∧
    (Car.request_spot ⟨VehicleType.CAR, some 0⟩ ⟨1, [true]⟩).1.toReturn =
      (Car.request_spot ⟨VehicleType.CAR, none⟩ ⟨1, [true]⟩).1.toReturn ∧
    (Car.yield_spot ⟨VehicleType.CAR, none⟩ ⟨1, [true]⟩ 5).1 =
      .invalidIndex ∧
    (Car.yield_spot ⟨VehicleType.CAR, none⟩ ⟨1, [true]⟩ 0).1 = .notHeld ∧
    (Car.yield_spot ⟨VehicleType.CAR, none⟩ ⟨1, [true]⟩ 5).1.toReturn =
      (Car.yield_spot ⟨VehicleType.CAR, none⟩ ⟨1, [true]⟩ 0).1.toReturn := by
  decide

/-- C2 amended: the value returned distinguishes success from failure —
`Some index` (request) and `True` (yield) occur exactly on the successful
branch — but every failure reason is returned as the same bare `None` /
`False`; the reasons are distinguished only by the branch taken (the
printed diagnostic), not by the returned value alone. -/
theorem spec_C2_success_only_distinguishable (v : Vehicle)
    (lot : ParkingLot) (idx : Int) :
    (∀ i : Nat, (Vehicle.request_spot v lot).1.toReturn = some i ↔
      (Vehicle.request_spot v lot).1 = .granted i) ∧
    ((Vehicle.request_spot v lot).1.toReturn = none ↔
      ∀ i : Nat, (Vehicle.request_spot v lot).1 ≠ .granted i) ∧
    ((Vehicle.yield_spot v lot idx).1.toReturn = true ↔
      (Vehicle.yield_spot v lot idx).1 = .ok) ∧
    ((Vehicle.yield_spot v lot idx).1.toReturn = false ↔
      (Vehicle.yield_spot v lot idx).1 ≠ .ok) := by
  refine ⟨fun i => ?_, ?_, ?_, ?_⟩
  · cases hr : (Vehicle.request_spot v lot).1 <;>
      simp [RequestResult.toReturn]
  · cases hr : (Vehicle.request_spot v lot).1 <;>
      simp [RequestResult.toReturn]
  · cases hy : (Vehicle.yield_spot v lot idx).1 <;>
      simp [YieldResult.toReturn]
  · cases hy : (Vehicle.yield_spot v lot idx).1 <;>
      simp [YieldResult.toReturn]

/-- C3: `_find_single_spot` returns the least index whose spot is free when
one exists in 0..capacity-1, and None otherwise; in particular, on
occupancy [True,False,True,False,False] it returns 1. -/
theorem spec_C3_find_single_first_fit (lot : ParkingLot) :
    (∀ i : Nat, lot.find_single_spot = some i ↔
      (i < lot.capacity ∧ lot.spot i = false ∧
        ∀ j, j < i → lot.spot j = true)) ∧
    (lot.find_single_spot = none ↔
      ∀ j, j < lot.capacity → lot.spot j = true) ∧
    ParkingLot.find_single_spot ⟨5, [true, false, true, false, false]⟩ =
      some 1 := by
  refine ⟨fun i => ⟨fun h => ?_, fun h => ?_⟩, ⟨fun h => ?_, fun h => ?_⟩,
    by decide⟩
  · exact find_single_spot_some lot i h
  · obtain ⟨h1, h2, h3⟩ := h
    cases hfind : lot.find_single_spot with
    | none =>
      exact absurd (find_single_spot_none lot hfind i h1) (by simp [h2])
    | some k =>
      obtain ⟨hk1, hk2, hk3⟩ := find_single_spot_some lot k hfind
      rcases Nat.lt_trichotomy k i with hlt | heq | hgt
      · exact absurd (h3 k hlt) (by simp [hk2])
      · rw [← heq]
      · exact absurd (hk3 i hgt) (by simp [h2])
  · exact find_single_spot_none lot h
  · cases hfind : lot.find_single_spot with
    | none => rfl
    | some k =>
      obtain ⟨hk1, hk2, -⟩ := find_single_spot_some lot k hfind
      exact absurd (h k hk1) (by simp [hk2])

/-- C4: `_find_adjacent_spots` returns the least index i in 0..capacity-2
with spots i and i+1 both free, and None otherwise; in particular, on
[True,False,True,False,False] it returns 3, and on
[True,False,True,False,True] (capacity 5, singles held at 0, 2, 4) a truck
request fails NoCapacity even though 2 free spots remain. -/
theorem spec_C4_find_adjacent_first_fit (lot : ParkingLot) :
    (∀ i : Nat, lot.find_adjacent_spots = some i ↔
      (i + 1 < lot.capacity ∧ lot.spot i = false ∧
        lot.spot (i + 1) = false ∧
        ∀ j, j < i → (lot.spot j = true ∨ lot.spot (j + 1) = true))) ∧
    (lot.find_adjacent_spots = none ↔
      ∀ j, j + 1 < lot.capacity →
        (lot.spot j = true ∨ lot.spot (j + 1) = true)) ∧
    ParkingLot.find_adjacent_spots ⟨5, [true, false, true, false, false]⟩ =
      some 3 ∧
    (Truck.request_spot ⟨VehicleType.TRUCK, none⟩
      ⟨5, [true, false, true, false, true]⟩).1 = .noCapacity ∧
    (ParkingLot.get_availability
      ⟨5, [true, false, true, false, true]⟩).free = 2 := by
  refine ⟨fun i => ⟨fun h => ?_, fun h => ?_⟩, ⟨fun h => ?_, fun h => ?_⟩,
    by decide, by decide, by decide⟩
  · exact find_adjacent_spots_some lot i h
  · obtain ⟨h1, h2, h3, h4⟩ := h
    cases hfind : lot.find_adjacent_spots with
    | none =>
      rcases find_adjacent_spots_none lot hfind i h1 with hx | hx
      · exact absurd hx (by simp [h2])
      · exact absurd hx (by simp [h3])
    | some k =>
      obtain ⟨hk1, hk2, hk3, hk4⟩ := find_adjacent_spots_some lot k hfind
      rcases Nat.lt_trichotomy k i with hlt | heq | hgt
      · rcases h4 k hlt with hx | hx
        · exact absurd hk2 (by simp [hx])
        · exact absurd hk3 (by simp [hx])
      · rw [← heq]
      · rcases hk4 i hgt with hx | hx
        · exact absurd h2 (by simp [hx])
        · exact absurd h3 (by simp [hx])
  · exact find_adjacent_spots_none lot h
  · cases hfind : lot.find_adjacent_spots with
    | none => rfl
    | some k =>
      obtain ⟨hk1, hk2, hk3, -⟩ := find_adjacent_spots_some lot k hfind
      rcases h k hk1 with hx | hx
      · exact absurd hk2 (by simp [hx])
      · exact absurd hk3 (by simp [hx])

/-- C7 counterexample: an unheld car asked to yield the out-of-range index
5 on a capacity-5 lot fails with InvalidIndex, not NotHeld, because the
range check runs before the held-state check. -/
theorem spec_C7_counterexample :
    (⟨VehicleType.CAR, none⟩ : Vehicle).spot_index = none ∧
    (Vehicle.yield_spot ⟨VehicleType.CAR, none⟩ (ParkingLot.init 5) 5).1 =
      .invalidIndex ∧
    (Vehicle.yield_spot ⟨VehicleType.CAR, none⟩ (ParkingLot.init 5) 5).1 ≠
      .notHeld := by
  decide

/-- C7 amended: yielding on an unheld reservation always fails and never
mutates the reservation or the occupancy array; the failure is NotHeld
when the index lies in the valid range for the vehicle's kind and
InvalidIndex when it does not. -/
theorem spec_C7_unheld_yield_rejected (v : Vehicle) (lot : ParkingLot)
    (idx : Int) (hn : v.spot_index = none) :
    Vehicle.yield_spot v lot idx =
      (if idx < 0 ∨
          (match v.vehicleType with
            | VehicleType.CAR => (lot.capacity : Int)
            | VehicleType.TRUCK => (lot.capacity : Int) - 1) ≤ idx
        then YieldResult.invalidIndex else YieldResult.notHeld,
        v, lot) := by
  cases hty : v.vehicleType with
  | CAR =>
    rw [yield_dispatch_car v lot idx hty]
    by_cases hrange : idx < 0 ∨ (lot.capacity : Int) ≤ idx
    · rw [car_yield_invalid v lot idx hrange]
      simp [hrange]
    · rw [car_yield_notHeld v lot idx hrange hn]
      simp [hrange]
  | TRUCK =>
    rw [yield_dispatch_truck v lot idx hty]
    by_cases hrange : idx < 0 ∨ (lot.capacity : Int) - 1 ≤ idx
    · rw [truck_yield_invalid v lot idx hrange]
      simp only [show (match VehicleType.TRUCK with
        | VehicleType.CAR => (lot.capacity : Int)
        | VehicleType.TRUCK => (lot.capacity : Int) - 1) =
          (lot.capacity : Int) - 1 from rfl]
      rw [if_pos hrange]
    · rw [truck_yield_notHeld v lot idx hrange hn]
      simp only [show (match VehicleType.TRUCK with
        | VehicleType.CAR => (lot.capacity : Int)
        | VehicleType.TRUCK => (lot.capacity : Int) - 1) =
          (lot.capacity : Int) - 1 from rfl]
      rw [if_neg hrange]

/-- Witness for the amended C7: an unheld car, in-range index 2. -/
theorem spec_C7_unheld_yield_rejected_witness :
    (⟨VehicleType.CAR, none⟩ : Vehicle).spot_index = none ∧
    Vehicle.yield_spot ⟨VehicleType.CAR, none⟩ (ParkingLot.init 5) 2 =
      (if (2 : Int) < 0 ∨
          (match (⟨VehicleType.CAR, none⟩ : Vehicle).vehicleType with
            | VehicleType.CAR => (((ParkingLot.init 5).capacity : Nat) : Int)
            | VehicleType.TRUCK =>
              (((ParkingLot.init 5).capacity : Nat) : Int) - 1) ≤ 2
        then YieldResult.invalidIndex else YieldResult.notHeld,
        ⟨VehicleType.CAR, none⟩, ParkingLot.init 5) :=
  ⟨rfl, spec_C7_unheld_yield_rejected ⟨VehicleType.CAR, none⟩
    (ParkingLot.init 5) 2 rfl⟩

/-- C8: a lot of capacity 0 or 1 is constructed without error, and in every
reachable state every truck request returns NoCapacity (never AlreadyHeld,
never a grant) and leaves the reservation and the occupancy unchanged. -/
theorem spec_C8_small_capacity_truck_nocap (c : Nat) (vs0 : List Vehicle)
    (ops : List Op) (h0 : ∀ v ∈ vs0, v.spot_index = none) (hc : c ≤ 1)
    (p : Nat) (v : Vehicle)
    (hv : (SysState.run ⟨ParkingLot.init c, vs0⟩ ops).vehicles[p]? = some v)
    (hty : v.vehicleType = .TRUCK) :
    Truck.request_spot v (SysState.run ⟨ParkingLot.init c, vs0⟩ ops).lot =
      (.noCapacity, v,
        (SysState.run ⟨ParkingLot.init c, vs0⟩ ops).lot) := by
  obtain ⟨hlen, hheld, -, -⟩ :=
    Inv_run (ParkingLot.init c) vs0 ops (Inv_init c vs0 h0)
  have hcap : (SysState.run ⟨ParkingLot.init c, vs0⟩ ops).lot.capacity = c :=
    run_capacity (ParkingLot.init c) vs0 ops
  have hsi : v.spot_index = none := by
    cases hsi : v.spot_index with
    | none => rfl
    | some i =>
      have hmem : i + 1 ∈ v.spotSet := by simp [Vehicle.spotSet, hsi, hty]
      have := (hheld p v hv (i + 1) hmem).1
      omega
  have hfind :
      (SysState.run ⟨ParkingLot.init c, vs0⟩ ops).lot.find_adjacent_spots =
        none := by
    simp only [ParkingLot.find_adjacent_spots]
    rw [show (SysState.run ⟨ParkingLot.init c, vs0⟩ ops).lot.capacity - 1 =
      0 by omega]
    rfl
  simp [Truck.request_spot, hsi, hfind]

/-- Witness for C8: a fresh capacity-1 lot with one truck bound to it. -/
theorem spec_C8_small_capacity_truck_nocap_witness :
    (∀ v ∈ ([⟨.TRUCK, none⟩] : List Vehicle), v.spot_index = none) ∧
    (1 : Nat) ≤ 1 ∧
    (SysState.run ⟨ParkingLot.init 1, [⟨.TRUCK, none⟩]⟩ []).vehicles[0]? =
      some ⟨VehicleType.TRUCK, none⟩ ∧
    (⟨VehicleType.TRUCK, none⟩ : Vehicle).vehicleType = .TRUCK ∧
    Truck.request_spot ⟨VehicleType.TRUCK, none⟩
      (SysState.run ⟨ParkingLot.init 1, [⟨.TRUCK, none⟩]⟩ []).lot =
      (.noCapacity, ⟨VehicleType.TRUCK, none⟩,
        (SysState.run ⟨ParkingLot.init 1, [⟨.TRUCK, none⟩]⟩ []).lot) :=
  ⟨by decide, by decide, by decide, rfl,
    spec_C8_small_capacity_truck_nocap 1 [⟨.TRUCK, none⟩] [] (by decide)
      (by decide) 0 ⟨VehicleType.TRUCK, none⟩ (by decide) rfl⟩

/-- C10: whenever a truck request succeeds returning index i, the pair fits
within bounds (i+2 ≤ capacity), spots i and i+1 were both free before the
commit and are both occupied after it, the reservation's held index becomes
i, and the occupancy array's length and the capacity are unchanged — the
pair commit never writes outside the array. -/
theorem spec_C10_truck_commit_bounds (v : Vehicle) (lot : ParkingLot)
    (i : Nat) (v' : Vehicle) (lot' : ParkingLot)
    (hlen : lot.spots.length = lot.capacity)
    (h : Truck.request_spot v lot = (.granted i, v', lot')) :
    i + 2 ≤ lot.capacity ∧
    lot.spot i = false ∧ lot.spot (i + 1) = false ∧
    lot'.spot i = true ∧ lot'.spot (i + 1) = true ∧
    v'.spot_index = some i ∧
    lot'.spots.length = lot.spots.length ∧
    lot'.capacity = lot.capacity := by
  cases hsi : v.spot_index with
  | some held =>
    rw [show Truck.request_spot v lot = (.alreadyHeld held, v, lot) by
      simp [Truck.request_spot, hsi]] at h
    simp at h
  | none =>
    cases hfind : lot.find_adjacent_spots with
    | none =>
      rw [show Truck.request_spot v lot = (.noCapacity, v, lot) by
        simp [Truck.request_spot, hsi, hfind]] at h
      simp at h
    | some k =>
      rw [show Truck.request_spot v lot = (.granted k,
          { v with spot_index := some k },
          { lot with spots := (lot.spots.set k true).set (k + 1) true }) by
        simp [Truck.request_spot, hsi, hfind]] at h
      injection h with h1 h'
      injection h' with h2 h3
      injection h1 with hk
      subst hk
      subst h2
      subst h3
      obtain ⟨hk1, hfree0, hfree1, -⟩ := find_adjacent_spots_some lot k hfind
      refine ⟨by omega, hfree0, hfree1, ?_, ?_, rfl, by simp, rfl⟩
      · simp only [ParkingLot.spot]
        rw [getD_set_ne _ _ (by omega), getD_set_self _ _ _ (by omega)]
      · simp only [ParkingLot.spot]
        rw [getD_set_self]
        simp only [List.length_set]
        omega

/-- Witness for C10: a fresh capacity-2 lot grants the pair (0, 1). -/
theorem spec_C10_truck_commit_bounds_witness :
    (ParkingLot.init 2).spots.length = (ParkingLot.init 2).capacity ∧
    Truck.request_spot ⟨VehicleType.TRUCK, none⟩ (ParkingLot.init 2) =
      (.granted 0, ⟨VehicleType.TRUCK, some 0⟩,
        (⟨2, [true, true]⟩ : ParkingLot)) ∧
    (0 + 2 ≤ (ParkingLot.init 2).capacity ∧
      (ParkingLot.init 2).spot 0 = false ∧
      (ParkingLot.init 2).spot (0 + 1) = false ∧
      (⟨2, [true, true]⟩ : ParkingLot).spot 0 = true ∧
      (⟨2, [true, true]⟩ : ParkingLot).spot (0 + 1) = true ∧
      (⟨VehicleType.TRUCK, some 0⟩ : Vehicle).spot_index = some 0 ∧
      (⟨2, [true, true]⟩ : ParkingLot).spots.length =
        (ParkingLot.init 2).spots.length ∧
      (⟨2, [true, true]⟩ : ParkingLot).capacity =
        (ParkingLot.init 2).capacity) :=
  ⟨rfl, by decide,
    spec_C10_truck_commit_bounds ⟨VehicleType.TRUCK, none⟩
      (ParkingLot.init 2) 0 ⟨VehicleType.TRUCK, some 0⟩
      (⟨2, [true, true]⟩ : ParkingLot) rfl (by decide)⟩

end CarTruck
